import Mathlib

/-!
Verification development for the `SecuritySanitizer` engine of
`exchange-platform-v3` (`src/backend/src/utils/sanitizer.py`).

Strings of the Python program are modelled as `List Char`.  Regular
expressions (compiled with `re.IGNORECASE | re.DOTALL`) are modelled by a
small AST together with a backtracking matcher that follows Python's
leftmost, first-alternative, greedy/lazy semantics.  All definitions are
structural recursions so that the kernel can evaluate them on concrete
inputs.
-/

/-- Helper characters written via code points to keep literals simple. -/
def squote : Char := Char.ofNat 39

def btick : Char := Char.ofNat 96

def lbrace : Char := Char.ofNat 123

def rbrace : Char := Char.ofNat 125

/-- ASCII lower-casing, as applied by case-insensitive regex matching. -/
def pyLower (c : Char) : Char :=
  if 'A' ≤ c ∧ c ≤ 'Z' then Char.ofNat (c.toNat + 32) else c

/-- SAFE_CHARS['alphanumeric'] from the source. -/
def alphanumericChars : List Char :=
  ("abcdefghijklmnopqrstuvwxyzABCDEFGHIJKLMNOPQRSTUVWXYZ0123456789").data

/-- SAFE_CHARS['basic_punctuation'] from the source:
the characters of the Python literal '.,!?;:()[]\x7b\x7d"\'-_+=@#$%^&*~/|\\`'. -/
def basicPunctuationChars : List Char :=
  ['.', ',', '!', '?', ';', ':', '(', ')', '[', ']', lbrace, rbrace,
   '"', squote, '-', '_', '+', '=', '@', '#', '$', '%', '^', '&', '*', '~',
   '/', '|', '\\', btick]

/-- SAFE_CHARS['whitespace'] from the source. -/
def whitespaceChars : List Char := [' ', '\t', '\n', '\r']

/-- SAFE_CHARS['extended'] from the source (accented characters). -/
def extendedChars : List Char :=
  ("àáâãäåæçèéêëìíîïñòóôõöøùúûüýÿß").data

/-- Regular-expression AST covering the constructs used by the
DANGEROUS_PATTERNS table: literals, character classes, sequencing,
ordered alternation, greedy and lazy stars, and word boundaries. -/
inductive Rx where
  | eps : Rx
  | lit : Char → Rx
  | cls : (Char → Bool) → Rx
  | wordB : Rx
  | seq : Rx → Rx → Rx
  | alt : Rx → Rx → Rx
  | star : Rx → Rx
  | lazystar : Rx → Rx

/-- Word character test used by word boundaries, modelling regex `\w`
on the ASCII range. -/
def isWordChar (c : Char) : Bool := c.isAlphanum || c == '_'

def isWordOpt : Option Char → Bool
  | none => false
  | some c => isWordChar c

/-- First-success choice on `Option`. -/
def oalt {α : Type} : Option α → Option α → Option α
  | some x, _ => some x
  | none, b => b

/-- Matcher result: the final preceding character and the unconsumed rest. -/
abbrev MRes := Option (Option Char × List Char)

/-- Matcher continuation. -/
abbrev MCont := Option Char → List Char → MRes

/-- One layer of the backtracking matcher.  `deeper` re-enters the matcher
with less fuel when a star body made progress, so that iteration is
bounded; everything else is structural on the pattern. -/
def mgo (deeper : Rx → Option Char → List Char → MCont → MRes) :
    Rx → Option Char → List Char → MCont → MRes
  | .eps, p, s, k => k p s
  | .lit c, _, s, k =>
    match s with
    | [] => none
    | d :: t => if pyLower d == pyLower c then k (some d) t else none
  | .cls f, _, s, k =>
    match s with
    | [] => none
    | d :: t => if f d then k (some d) t else none
  | .wordB, p, s, k =>
    if isWordOpt p != isWordOpt s.head? then k p s else none
  | .seq a b, p, s, k => mgo deeper a p s (fun p2 s2 => mgo deeper b p2 s2 k)
  | .alt a b, p, s, k => oalt (mgo deeper a p s k) (mgo deeper b p s k)
  | .star r, p, s, k =>
    oalt
      (mgo deeper r p s (fun p2 s2 =>
        if s2.length < s.length then deeper (.star r) p2 s2 k else none))
      (k p s)
  | .lazystar r, p, s, k =>
    oalt (k p s)
      (mgo deeper r p s (fun p2 s2 =>
        if s2.length < s.length then deeper (.lazystar r) p2 s2 k else none))

/-- Fuelled backtracking matcher.  Fuel is spent only when a star is
re-entered after consuming input, so `length + slack` fuel is enough. -/
def mrun : Nat → Rx → Option Char → List Char → MCont → MRes
  | 0, _, _, _, _ => none
  | fuel + 1, r, p, s, k => mgo (mrun fuel) r p s k

/-- Try to match `r` at the start of `s`; `prev` is the character just
before the current position (for word boundaries).  Returns the final
preceding character and the rest of the input after the match. -/
def matchAt (r : Rx) (prev : Option Char) (s : List Char) : MRes :=
  mrun (s.length + 8) r prev s (fun p rest => some (p, rest))

/-- re.Pattern.search: try to match at every position, left to right. -/
def searchGo (r : Rx) : Option Char → List Char → Bool
  | prev, [] => (matchAt r prev []).isSome
  | prev, c :: t =>
    if (matchAt r prev (c :: t)).isSome then true else searchGo r (some c) t

/-- re.Pattern.search on a whole string. -/
def searchR (r : Rx) (data : List Char) : Bool := searchGo r none data

/-- Fuelled core of `re.sub(pattern, '', s)`: remove every non-overlapping
leftmost match, scanning left to right. -/
def subGo : Nat → Rx → Option Char → List Char → List Char
  | 0, _, _, s => s
  | fuel + 1, r, prev, s =>
    match matchAt r prev s with
    | some (p2, rest) =>
      if rest.length < s.length then subGo fuel r p2 rest
      else
        match s with
        | [] => []
        | c :: t => c :: subGo fuel r (some c) t
    | none =>
      match s with
      | [] => []
      | c :: t => c :: subGo fuel r (some c) t

/-- pattern.sub('', s). -/
def subAll (r : Rx) (s : List Char) : List Char := subGo (s.length + 1) r none s

/-- Build the sequencing of a literal string. -/
def rstr : List Char → Rx
  | [] => .eps
  | [c] => .lit c
  | c :: rest => .seq (.lit c) (rstr rest)

def rs (s : String) : Rx := rstr s.data

/-- Ordered alternation of a list of alternatives. -/
def raltL : List Rx → Rx
  | [] => .eps
  | [r] => r
  | r :: rest => .alt r (raltL rest)

/-- Sequence a list of regexes. -/
def rseqL : List Rx → Rx
  | [] => .eps
  | [r] => r
  | r :: rest => .seq r (rseqL rest)

/-- Greedy `+`. -/
def rplus (r : Rx) : Rx := .seq r (.star r)

/-- Regex `\w` (word character), ASCII model. -/
def wchar : Rx := .cls isWordChar

/-- Regex `\d`. -/
def dchar : Rx := .cls Char.isDigit

/-- Regex `\s` (ASCII whitespace as matched by Python on these inputs). -/
def schar : Rx := .cls (fun c =>
  c == ' ' || c == '\t' || c == '\n' || c == '\r' || c == '\x0b' || c == '\x0c')

/-- Regex `.` under re.DOTALL: any character. -/
def anych : Rx := .cls (fun _ => true)

/-- Regex `[^>]`. -/
def notGt : Rx := .cls (fun c => !(c == '>'))

/-! DANGEROUS_PATTERNS, category 'xss'.  Each pattern is kept together with
its source text (used by the threat reports). -/

def xssP1 : Rx :=
  rseqL [rs ("<script"), .star notGt, .lit '>', .lazystar anych, rs ("</script>")]

def xssP2 : Rx := rs ("javascript:")

def xssP3 : Rx := rseqL [.lit 'o', .lit 'n', rplus wchar, .star schar, .lit '=']

def xssP4 : Rx :=
  rseqL [rs ("<iframe"), .star notGt, .lit '>', .lazystar anych, rs ("</iframe>")]

def xssP5 : Rx :=
  rseqL [rs ("<object"), .star notGt, .lit '>', .lazystar anych, rs ("</object>")]

def xssP6 : Rx :=
  rseqL [rs ("<embed"), .star notGt, .lit '>', .lazystar anych, rs ("</embed>")]

def xssP7 : Rx := rseqL [rs ("<link"), .star notGt, .lit '>']

def xssP8 : Rx := rseqL [rs ("<meta"), .star notGt, .lit '>']

def xssP9 : Rx :=
  rseqL [rs ("<style"), .star notGt, .lit '>', .lazystar anych, rs ("</style>")]

def xssP10 : Rx := rseqL [rs ("expression"), .star schar, .lit '(']

def xssP11 : Rx := rs ("@import")

def xssP12 : Rx := rs ("vbscript:")

def xssP13 : Rx := rs ("data:text/html")

def xssPatterns : List (String × Rx) :=
  [("<script[^>]*>.*?</script>", xssP1),
   ("javascript:", xssP2),
   ("on\\w+\\s*=", xssP3),
   ("<iframe[^>]*>.*?</iframe>", xssP4),
   ("<object[^>]*>.*?</object>", xssP5),
   ("<embed[^>]*>.*?</embed>", xssP6),
   ("<link[^>]*>", xssP7),
   ("<meta[^>]*>", xssP8),
   ("<style[^>]*>.*?</style>", xssP9),
   ("expression\\s*\\(", xssP10),
   ("@import", xssP11),
   ("vbscript:", xssP12),
   ("data:text/html", xssP13)]

/-! DANGEROUS_PATTERNS, category 'sql'. -/

def sqlP1 : Rx :=
  .seq (raltL [rs ("union"), rs ("select"), rs ("insert"), rs ("update"),
    rs ("delete"), rs ("drop"), rs ("create"), rs ("alter"),
    rs ("exec"), rs ("execute")]) (rplus schar)

def sqlP2 : Rx :=
  rseqL [raltL [rs ("or"), rs ("and")], rplus schar, rplus dchar,
    .star schar, .lit '=', .star schar, rplus dchar]

def sqlP3 : Rx :=
  .seq (raltL [.lit squote, .lit '"'])
    (raltL [rseqL [.star schar, .lit ';', .star schar],
            rseqL [.star schar, .lit '-', .lit '-'],
            rseqL [.star schar, .lit '/', .lit '*']])

def sqlP4 : Rx :=
  rseqL [raltL [rseqL [.wordB, rs ("or"), .wordB],
                rseqL [.wordB, rs ("and"), .wordB]],
    rplus schar,
    raltL [rseqL [.wordB, rs ("false"), .wordB],
           rseqL [.wordB, rs ("true"), .wordB],
           rseqL [rplus dchar, .star schar, .lit '=', .star schar, rplus dchar]]]

def sqlPatterns : List (String × Rx) :=
  [("(?i)(union|select|insert|update|delete|drop|create|alter|exec|execute)\\s+", sqlP1),
   ("(?i)(or|and)\\s+\\d+\\s*=\\s*\\d+", sqlP2),
   ("(?i)(\\\x27|\\\")(\\s*;\\s*|\\s*--|\\s*/\\*)", sqlP3),
   ("(?i)(\\bor\\b|\\band\\b)\\s+(\\bfalse\\b|\\btrue\\b|\\d+\\s*=\\s*\\d+)", sqlP4)]

/-! DANGEROUS_PATTERNS, category 'path_traversal'. -/

def pathP1 : Rx := .seq (.lit '.') (.seq (.lit '.') (rplus (.lit '/')))

def pathP2 : Rx := .seq (.lit '.') (.seq (.lit '.') (rplus (.lit '\\')))

def pathP3 : Rx := rs ("%2e%2e%2f")

def pathP4 : Rx := rs ("%2e%2e%5c")

def pathP5 : Rx := rs ("%252e%252e%252f")

def pathPatterns : List (String × Rx) :=
  [("\\.\\./+", pathP1),
   ("\\.\\.\\\\+", pathP2),
   ("%2e%2e%2f", pathP3),
   ("%2e%2e%5c", pathP4),
   ("%252e%252e%252f", pathP5)]

/-! DANGEROUS_PATTERNS, category 'command_injection'. -/

def commandClassChars : List Char :=
  [';', '&', '|', btick, '$', '(', ')', lbrace, rbrace, '[', ']', '<', '>']

def cmdP1 : Rx := .cls (fun c => commandClassChars.contains c)

def cmdP2 : Rx :=
  .seq (raltL [rs ("rm"), rs ("del"), rs ("format"), rs ("shutdown"),
    rs ("reboot")]) (rplus schar)

def cmdP3 : Rx :=
  .seq (raltL [rs ("cat"), rs ("type"), rs ("more"), rs ("less")]) (rplus schar)

def cmdP4 : Rx :=
  .seq (raltL [rs ("wget"), rs ("curl"), rs ("nc"), rs ("netcat")]) (rplus schar)

def commandPatterns : List (String × Rx) :=
  [("[;&|\x60$()\x7b\x7d[\\]<>]", cmdP1),
   ("(?i)(rm|del|format|shutdown|reboot)\\s+", cmdP2),
   ("(?i)(cat|type|more|less)\\s+", cmdP3),
   ("(?i)(wget|curl|nc|netcat)\\s+", cmdP4)]

/-- self.compiled_patterns: category name paired with its ordered pattern
list, in the insertion order of DANGEROUS_PATTERNS. -/
def compiled_patterns : List (String × List (String × Rx)) :=
  [("xss", xssPatterns), ("sql", sqlPatterns),
   ("path_traversal", pathPatterns), ("command_injection", commandPatterns)]

/-! Encoding machinery: urllib.parse.unquote, html.unescape, html.escape. -/

def isHexDigitB (c : Char) : Bool :=
  c.isDigit || ('a' ≤ c && c ≤ 'f') || ('A' ≤ c && c ≤ 'F')

def hexDigitVal (c : Char) : Nat :=
  if c.isDigit then c.toNat - 48
  else if 'a' ≤ c && c ≤ 'f' then c.toNat - 87
  else if 'A' ≤ c && c ≤ 'F' then c.toNat - 55
  else 0

def digitsVal (base : Nat) (ds : List Char) : Nat :=
  ds.foldl (fun acc c => acc * base + hexDigitVal c) 0

/-- The Unicode replacement character U+FFFD. -/
def fffd : Char := Char.ofNat 0xFFFD

def hexPair (c1 c2 : Char) : Option Nat :=
  if isHexDigitB c1 && isHexDigitB c2 then
    some (16 * hexDigitVal c1 + hexDigitVal c2)
  else none

/-- Token stream for percent-decoding: untouched characters and the bytes
coming from %XX escapes. -/
inductive QTok where
  | raw : Char → QTok
  | byte : Nat → QTok

def qtokGo : Nat → List Char → List QTok
  | 0, _ => []
  | _ + 1, [] => []
  | fuel + 1, c :: rest =>
    if c = '%' then
      match rest with
      | c1 :: c2 :: rest2 =>
        (match hexPair c1 c2 with
         | some b => .byte b :: qtokGo fuel rest2
         | none => .raw c :: qtokGo fuel rest)
      | _ => .raw c :: qtokGo fuel rest
    else .raw c :: qtokGo fuel rest

def qtokenize (s : List Char) : List QTok := qtokGo (s.length + 1) s

def isContB (b : Nat) : Bool := 0x80 ≤ b && b ≤ 0xBF

def cont3Ok (b b2 : Nat) : Bool :=
  if b == 0xE0 then 0xA0 ≤ b2 && b2 ≤ 0xBF
  else if b == 0xED then 0x80 ≤ b2 && b2 ≤ 0x9F
  else isContB b2

def cont4Ok (b b2 : Nat) : Bool :=
  if b == 0xF0 then 0x90 ≤ b2 && b2 ≤ 0xBF
  else if b == 0xF4 then 0x80 ≤ b2 && b2 ≤ 0x8F
  else isContB b2

/-- UTF-8 decoding of a byte run with U+FFFD replacement on error, the
error handling used by urllib.parse.unquote. -/
def utf8Go : Nat → List Nat → List Char
  | 0, _ => []
  | _ + 1, [] => []
  | fuel + 1, b :: rest =>
    if b < 0x80 then Char.ofNat b :: utf8Go fuel rest
    else if 0xC2 ≤ b && b ≤ 0xDF then
      match rest with
      | b2 :: rest2 =>
        if isContB b2 then
          Char.ofNat ((b - 0xC0) * 64 + (b2 - 0x80)) :: utf8Go fuel rest2
        else fffd :: utf8Go fuel (b2 :: rest2)
      | [] => [fffd]
    else if 0xE0 ≤ b && b ≤ 0xEF then
      match rest with
      | b2 :: b3 :: rest3 =>
        if cont3Ok b b2 && isContB b3 then
          Char.ofNat ((b - 0xE0) * 4096 + (b2 - 0x80) * 64 + (b3 - 0x80)) ::
            utf8Go fuel rest3
        else fffd :: utf8Go fuel (b2 :: b3 :: rest3)
      | _ => fffd :: utf8Go fuel rest
    else if 0xF0 ≤ b && b ≤ 0xF4 then
      match rest with
      | b2 :: b3 :: b4 :: rest4 =>
        if cont4Ok b b2 && isContB b3 && isContB b4 then
          Char.ofNat ((b - 0xF0) * 262144 + (b2 - 0x80) * 4096 +
            (b3 - 0x80) * 64 + (b4 - 0x80)) :: utf8Go fuel rest4
        else fffd :: utf8Go fuel (b2 :: b3 :: b4 :: rest4)
      | _ => fffd :: utf8Go fuel rest
    else fffd :: utf8Go fuel rest

def utf8DecodeReplace (bs : List Nat) : List Char := utf8Go (bs.length + 1) bs

/-- Decode the token stream: raw characters pass through, maximal byte
runs are UTF-8 decoded with replacement.  `acc` holds the pending byte run
in reverse order. -/
def decodeToksAux : List QTok → List Nat → List Char
  | [], acc => utf8DecodeReplace acc.reverse
  | .raw c :: rest, acc =>
    utf8DecodeReplace acc.reverse ++ (c :: decodeToksAux rest [])
  | .byte b :: rest, acc => decodeToksAux rest (b :: acc)

/-- urllib.parse.unquote on a str (UTF-8, errors='replace'). -/
def pyUnquote (s : List Char) : List Char := decodeToksAux (qtokenize s) []

/-- Restricted table of named HTML entities.  Python's html.unescape knows
the full HTML5 table; the model carries the common names, which is enough
for every input considered here, and is the identity on strings without
'&' exactly as the stdlib function is. -/
def namedEntities : List (List Char × Char) :=
  [(("amp").data, '&'), (("lt").data, '<'), (("gt").data, '>'),
   (("quot").data, '"'), (("apos").data, squote)]

/-- Boolean prefix test on character lists. -/
def listPref : List Char → List Char → Bool
  | [], _ => true
  | _ :: _, [] => false
  | a :: xs, b :: ys => a == b && listPref xs ys

def namedLookup : List (List Char × Char) → List Char → Option (Char × Nat)
  | [], _ => none
  | (nm, ch) :: rest, s =>
    if listPref nm s && ((s.drop nm.length).head? == some ';') then
      some (ch, nm.length + 1)
    else namedLookup rest s

/-- Character for a numeric character reference; invalid code points give
the replacement character. -/
def codeToChar (n : Nat) : Char :=
  if n ≠ 0 ∧ (n < 0xD800 ∨ (0xE000 ≤ n ∧ n < 0x110000)) then Char.ofNat n
  else fffd

/-- Parse one entity after a '&': numeric (decimal or hex, optional
trailing semicolon) or a named entity followed by ';'.  Returns the
produced character and the number of characters consumed after the '&'. -/
def parseEntity (s : List Char) : Option (Char × Nat) :=
  match s with
  | '#' :: t =>
    (match t with
     | c :: t2 =>
       if c == 'x' || c == 'X' then
         let ds := t2.takeWhile isHexDigitB
         if ds.isEmpty then none
         else some (codeToChar (digitsVal 16 ds),
           2 + ds.length + (if (t2.drop ds.length).head? == some ';' then 1 else 0))
       else
         let ds := t.takeWhile Char.isDigit
         if ds.isEmpty then none
         else some (codeToChar (digitsVal 10 ds),
           1 + ds.length + (if (t.drop ds.length).head? == some ';' then 1 else 0))
     | [] => none)
  | _ => namedLookup namedEntities s

def unescGo : Nat → List Char → List Char
  | 0, s => s
  | _ + 1, [] => []
  | fuel + 1, c :: rest =>
    if c = '&' then
      match parseEntity rest with
      | some (ch, n) => ch :: unescGo fuel (rest.drop n)
      | none => c :: unescGo fuel rest
    else c :: unescGo fuel rest

/-- html.unescape. -/
def htmlUnescape (s : List Char) : List Char := unescGo (s.length + 1) s

/-- Concatenating map over characters (the shape of str.replace chains and
html.escape). -/
def expand (f : Char → List Char) : List Char → List Char
  | [] => []
  | c :: t => f c ++ expand f t

/-- html.escape(data, quote=True). -/
def htmlEscape (s : List Char) : List Char :=
  expand (fun c =>
    if c == '&' then ("&amp;").data
    else if c == '<' then ("&lt;").data
    else if c == '>' then ("&gt;").data
    else if c == '"' then ("&quot;").data
    else if c == squote then ("&#x27;").data
    else [c]) s

/-- str.replace for a single-character needle. -/
def replCh (c : Char) (rep : List Char) (s : List Char) : List Char :=
  expand (fun d => if d == c then rep else [d]) s

/-! The multi-pass decode loop of _normalize_encoding.  The decoder is a
parameter of type `List Char → Except Unit (List Char)` so that the
try/except around `unquote` is part of the model: an `Except.error` is the
decoder raising. -/

def decodeLoop (d : List Char → Except Unit (List Char)) :
    Nat → List Char → List Char → List Char
  | 0, _, cur => cur
  | fuel + 1, prev, cur =>
    if prev = cur then cur
    else
      match d cur with
      | .ok next => decodeLoop d fuel cur next
      | .error _ => cur

/-- The percent-decode loop: prev_data = "", up to max_iterations = 5
passes, stopping on a fixpoint or on a decoding failure. -/
def multiDecode (d : List Char → Except Unit (List Char)) (data : List Char) :
    List Char :=
  decodeLoop d 5 [] data

/-- The concrete decoder used by the source: unquote, which on Python 3
str input does not raise. -/
def unquoteD (s : List Char) : Except Unit (List Char) := Except.ok (pyUnquote s)

/-- data.encode('utf-8', 'ignore').decode('utf-8').  Every Lean `Char` is
a valid Unicode scalar value, so the lossy round trip through UTF-8 is the
identity on the modelled strings. -/
def utf8Roundtrip (s : List Char) : List Char := s

/-- SecuritySanitizer._normalize_encoding. -/
def normalize_encoding (data : List Char) : List Char :=
  utf8Roundtrip (htmlUnescape (multiDecode unquoteD data))

/-! Context-specific transforms. -/

/-- Apply pattern.sub('', data) for each pattern of a category, in order. -/
def sanitizeWith (pats : List (String × Rx)) (data : List Char) : List Char :=
  pats.foldl (fun d p => subAll p.2 d) data

/-- SecuritySanitizer._sanitize_html.  The non-strict branch names an
allowed-tags list but escapes everything just like the strict branch. -/
def sanitize_html (data : List Char) (strict : Bool) : List Char :=
  let d := sanitizeWith xssPatterns data
  if strict then htmlEscape d
  else
    let _allowed_tags := [("b" : String), "i", "u", "strong", "em", "p", "br"]
    htmlEscape d

/-- SecuritySanitizer._sanitize_sql. -/
def sanitize_sql (data : List Char) (strict : Bool) : List Char :=
  let d := sanitizeWith sqlPatterns data
  if strict then
    replCh '_' ['\\', '_']
      (replCh '%' ['\\', '%']
        (replCh '\\' ['\\', '\\']
          (replCh '"' ['"', '"']
            (replCh squote [squote, squote] d))))
  else d

/-- SAFE_CHARS['alphanumeric'] | set('.-_'). -/
def pathSafeChars : List Char := alphanumericChars ++ ['.', '-', '_']

/-- SAFE_CHARS['alphanumeric'] | set(' .-_'). -/
def commandSafeChars : List Char := alphanumericChars ++ [' ', '.', '-', '_']

/-- SecuritySanitizer._sanitize_path. -/
def sanitize_path (data : List Char) (strict : Bool) : List Char :=
  let d := sanitizeWith pathPatterns data
  if strict then d.filter (fun c => pathSafeChars.contains c) else d

/-- SecuritySanitizer._sanitize_command. -/
def sanitize_command (data : List Char) (strict : Bool) : List Char :=
  let d := sanitizeWith commandPatterns data
  if strict then d.filter (fun c => commandSafeChars.contains c) else d

/-- SecuritySanitizer._sanitize_general: all categories, in table order. -/
def sanitize_general (data : List Char) (_strict : Bool) : List Char :=
  compiled_patterns.foldl (fun d cp => sanitizeWith cp.2 d) data

/-- The fixed punctuation subset of the sql whitelist:
set('.,!?;:()[]\x7b\x7d"\'-_+=@'). -/
def sqlAllowedPunct : List Char :=
  ['.', ',', '!', '?', ';', ':', '(', ')', '[', ']', lbrace, rbrace,
   '"', squote, '-', '_', '+', '=', '@']

/-- The `allowed` set computed by SecuritySanitizer._whitelist_filter for
each context. -/
def whitelistAllowed (context : String) : List Char :=
  if context = "html" then
    alphanumericChars ++ basicPunctuationChars ++ whitespaceChars
  else if context = "sql" then
    alphanumericChars ++ whitespaceChars ++ sqlAllowedPunct
  else if context = "path" then alphanumericChars ++ ['.', '-', '_', '/']
  else if context = "command" then alphanumericChars ++ [' ', '.', '-', '_']
  else alphanumericChars ++ basicPunctuationChars ++ whitespaceChars

/-- SecuritySanitizer._whitelist_filter. -/
def whitelistFilter (data : List Char) (context : String) : List Char :=
  data.filter (fun c => (whitelistAllowed context).contains c)

/-- SecuritySanitizer.sanitize_input. -/
def sanitize_input (input_data : List Char) (context : String) (strict : Bool) :
    List Char :=
  if input_data = [] then []
  else
    let s1 := normalize_encoding input_data
    let s2 :=
      if context = "html" then sanitize_html s1 strict
      else if context = "sql" then sanitize_sql s1 strict
      else if context = "path" then sanitize_path s1 strict
      else if context = "command" then sanitize_command s1 strict
      else sanitize_general s1 strict
    if strict then whitelistFilter s2 context else s2

/-! Validation reporting. -/

/-- The dict returned by SecuritySanitizer.validate_input. -/
structure ValidationReport where
  is_safe : Bool
  threats_found : List String
  sanitized_data : List Char
  original_length : Nat
  sanitized_length : Nat
  context : String
  reduction_ratio : ℚ

/-- Inner loop of the threat scan: one category's patterns, in order. -/
def patThreats (cat : String) : List (String × Rx) → List Char → List String
  | [], _ => []
  | p :: rest, data =>
    (if searchR p.2 data then [cat ++ ": " ++ p.1] else []) ++
      patThreats cat rest data

/-- Outer loop of the threat scan over the categories. -/
def catThreats : List (String × List (String × Rx)) → List Char → List String
  | [], _ => []
  | cp :: rest, data => patThreats cp.1 cp.2 data ++ catThreats rest data

/-- The threats list accumulated by validate_input over the raw input. -/
def threatsFound (data : List Char) : List String :=
  catThreats compiled_patterns data

/-- SecuritySanitizer.validate_input. -/
def validate_input (data : List Char) (context : String) : ValidationReport :=
  let threats := threatsFound data
  let sanitized := sanitize_input data context true
  { is_safe := threats.length == 0
    threats_found := threats
    sanitized_data := sanitized
    original_length := data.length
    sanitized_length := sanitized.length
    context := context
    reduction_ratio :=
      if data.length > 0 then
        ((data.length : ℚ) - (sanitized.length : ℚ)) / (data.length : ℚ)
      else 0 }

/-! Support lemmas. -/

lemma mem_whitelistFilter_allowed {c : Char} {d : List Char} {ctx : String}
    (h : c ∈ whitelistFilter d ctx) : c ∈ whitelistAllowed ctx := by
  unfold whitelistFilter at h
  exact List.mem_of_elem_eq_true (List.mem_filter.mp h).2

lemma mem_whitelistFilter_left {c : Char} {d : List Char} {ctx : String}
    (h : c ∈ whitelistFilter d ctx) : c ∈ d := by
  unfold whitelistFilter at h
  exact (List.mem_filter.mp h).1

/-- C1: in strict mode the output of sanitize_input contains only
characters of the whitelist that _whitelist_filter computes for the given
context. -/
theorem sanitize_strict_only_whitelist (x : List Char) (ctx : String) (c : Char)
    (h : c ∈ sanitize_input x ctx true) : c ∈ whitelistAllowed ctx := by
  by_cases hx : x = []
  · subst hx; simp [sanitize_input] at h
  · have h2 : c ∈ whitelistFilter
        (if ctx = "html" then sanitize_html (normalize_encoding x) true
         else if ctx = "sql" then sanitize_sql (normalize_encoding x) true
         else if ctx = "path" then sanitize_path (normalize_encoding x) true
         else if ctx = "command" then sanitize_command (normalize_encoding x) true
         else sanitize_general (normalize_encoding x) true) ctx := by
      simpa [sanitize_input, hx] using h
    exact mem_whitelistFilter_allowed h2

theorem sanitize_strict_only_whitelist_witness :
    ('a' ∈ sanitize_input (("a").data) "html" true) ∧ 'a' ∈ whitelistAllowed "html" :=
  ⟨by decide, sanitize_strict_only_whitelist (("a").data) "html" 'a' (by decide)⟩

/-- C9: the strict path transform filters to alphanumeric plus '.', '-',
'_' before the whitelist runs, so the final output contains no slash even
though the path whitelist itself includes '/'. -/
theorem sanitize_path_strict_no_slash (x : List Char) :
    ((sanitize_input x "path" true).contains '/') = false ∧
      '/' ∈ whitelistAllowed "path" := by
  constructor
  · cases hc : (sanitize_input x "path" true).contains '/' with
    | false => rfl
    | true =>
      exfalso
      have hmem : '/' ∈ sanitize_input x "path" true :=
        List.mem_of_elem_eq_true hc
      by_cases hx : x = []
      · subst hx; simp [sanitize_input] at hmem
      · have h2 : '/' ∈ whitelistFilter
            (sanitize_path (normalize_encoding x) true) "path" := by
          simpa [sanitize_input, hx] using hmem
        have h3 : '/' ∈ sanitize_path (normalize_encoding x) true :=
          mem_whitelistFilter_left h2
        have h4 : pathSafeChars.contains '/' = true :=
          (List.mem_filter.mp (by simpa [sanitize_path] using h3)).2
        exact absurd h4 (by decide)
  · decide

/-- C10: the verdict and threat list of validate_input do not depend on
the context argument; threat scanning always runs every pattern of every
category against the raw input. -/
theorem validate_verdict_ctx_independent (x : List Char) (c1 c2 : String) :
    (validate_input x c1).is_safe = (validate_input x c2).is_safe ∧
    (validate_input x c1).threats_found = (validate_input x c2).threats_found :=
  ⟨rfl, rfl⟩

/-- C5: empty input short-circuits sanitize_input to "" in every context
and mode, and validate_input on "" reports reduction_ratio 0 (the guarded
division) and a safe verdict. -/
theorem empty_input_invariant (ctx : String) (strict : Bool) :
    sanitize_input [] ctx strict = [] ∧
    (validate_input [] "general").reduction_ratio = 0 ∧
    (validate_input [] "general").is_safe = true :=
  ⟨by simp [sanitize_input], by decide, by decide⟩

theorem empty_input_invariant_witness :
    sanitize_input [] "html" true = [] ∧
    (validate_input [] "general").reduction_ratio = 0 ∧
    (validate_input [] "general").is_safe = true :=
  empty_input_invariant "html" true

/-- C8: any context other than html, sql, path and command takes the
general transform and, in strict mode, the general whitelist, so
sanitize_input behaves exactly as for the general context. -/
theorem unknown_context_general (x : List Char) (strict : Bool) (ctx : String)
    (h1 : ctx ≠ "html") (h2 : ctx ≠ "sql") (h3 : ctx ≠ "path")
    (h4 : ctx ≠ "command") :
    sanitize_input x ctx strict = sanitize_input x "general" strict := by
  have hg1 : ("general" : String) ≠ "html" := by decide
  have hg2 : ("general" : String) ≠ "sql" := by decide
  have hg3 : ("general" : String) ≠ "path" := by decide
  have hg4 : ("general" : String) ≠ "command" := by decide
  by_cases hx : x = []
  · simp [sanitize_input, hx]
  · simp only [sanitize_input, if_neg hx, if_neg h1, if_neg h2, if_neg h3,
      if_neg h4, if_neg hg1, if_neg hg2, if_neg hg3, if_neg hg4,
      whitelistFilter, whitelistAllowed]

theorem unknown_context_general_witness :
    (("json" : String) ≠ "html" ∧ ("json" : String) ≠ "sql" ∧
     ("json" : String) ≠ "path" ∧ ("json" : String) ≠ "command") ∧
    sanitize_input (("a").data) "json" true =
      sanitize_input (("a").data) "general" true :=
  ⟨by decide,
   unknown_context_general (("a").data) true "json" (by decide) (by decide)
     (by decide) (by decide)⟩

/-- C7 counterexample: over the whole pipeline, non-strict html is not
identical to strict html: on the vertical-tab character the strict
whitelist drops what the non-strict path keeps. -/
theorem nonstrict_html_differs :
    sanitize_input ['\x0b'] "html" false ≠ sanitize_input ['\x0b'] "html" true := by
  decide

/-- C7 amended: the html context transform itself ignores the strict flag
(both branches escape everything), and the full strict pipeline equals the
non-strict pipeline followed by the final whitelist filter; the two modes
differ only by that final filter. -/
theorem nonstrict_html_same_transform (d x : List Char) :
    sanitize_html d false = sanitize_html d true ∧
    sanitize_input x "html" true =
      whitelistFilter (sanitize_input x "html" false) "html" := by
  constructor
  · rfl
  · by_cases hx : x = []
    · subst hx; simp [sanitize_input, whitelistFilter]
    · simp [sanitize_input, hx, sanitize_html]

/-- C3 counterexample: the strict path pipeline does not return
"etc/passwd" on "../../etc/passwd": the strict character filter of
_sanitize_path drops the interior slash. -/
theorem path_example_not_spec :
    sanitize_input (("../../etc/passwd").data) "path" true ≠
      ("etc/passwd").data := by decide

/-- C3 amended: the traversal segments are stripped and the remaining
characters except the slashes are retained, giving "etcpasswd". -/
theorem path_example_value :
    sanitize_input (("../../etc/passwd").data) "path" true =
      ("etcpasswd").data := by decide

lemma patThreats_eq_nil_iff (cat : String) (ps : List (String × Rx))
    (data : List Char) :
    patThreats cat ps data = [] ↔ ∀ p ∈ ps, searchR p.2 data = false := by
  induction ps with
  | nil => simp [patThreats]
  | cons p rest ih =>
    have hunf : patThreats cat (p :: rest) data =
        (if searchR p.2 data then [cat ++ ": " ++ p.1] else []) ++
          patThreats cat rest data := rfl
    rw [hunf]
    by_cases hs : searchR p.2 data = true
    · rw [if_pos hs]
      constructor
      · intro h; exact absurd h (by simp)
      · intro h; exact absurd (h p (by simp)) (by simp [hs])
    · rw [if_neg hs]
      rw [List.nil_append]
      constructor
      · intro h q hq
        rcases List.mem_cons.mp hq with rfl | hq2
        · exact Bool.not_eq_true _ ▸ by simpa using hs
        · exact (ih.mp h) q hq2
      · intro h
        exact ih.mpr (fun q hq => h q (List.mem_cons_of_mem _ hq))

lemma catThreats_eq_nil_iff (cps : List (String × List (String × Rx)))
    (data : List Char) :
    catThreats cps data = [] ↔
      ∀ cp ∈ cps, ∀ p ∈ cp.2, searchR p.2 data = false := by
  induction cps with
  | nil => simp [catThreats]
  | cons cp rest ih =>
    simp [catThreats, List.append_eq_nil, ih, patThreats_eq_nil_iff]

/-- C4: validate_input reports is_safe = true exactly when no compiled
pattern of any category matches anywhere in the raw input; on
"<script>x</script>" in the html context the verdict is unsafe and the
threat list carries an xss-tagged entry. -/
theorem validate_is_safe_iff (x : List Char) (ctx : String) :
    ((validate_input x ctx).is_safe = true ↔
      ∀ cp ∈ compiled_patterns, ∀ p ∈ cp.2, searchR p.2 x = false) ∧
    (validate_input (("<script>x</script>").data) "html").is_safe = false ∧
    ((validate_input (("<script>x</script>").data) "html").threats_found.any
      (fun t => listPref (("xss").data) t.data)) = true := by
  refine ⟨?_, by decide, by decide⟩
  have hsafe : (validate_input x ctx).is_safe = ((threatsFound x).length == 0) :=
    rfl
  rw [hsafe]
  constructor
  · intro h
    have hlen : (threatsFound x).length = 0 := by simpa using h
    have hnil : catThreats compiled_patterns x = [] := by
      have := List.length_eq_zero.mp hlen
      simpa [threatsFound] using this
    exact (catThreats_eq_nil_iff _ _).mp hnil
  · intro h
    have hnil : threatsFound x = [] := by
      unfold threatsFound; exact (catThreats_eq_nil_iff _ _).mpr h
    simp [hnil]

/-! C6: the percent-decode loop.  `iterD d n x` is the n-fold application
of the decoder, undefined as soon as a pass fails. -/

def iterD (d : List Char → Except Unit (List Char)) :
    Nat → List Char → Option (List Char)
  | 0, x => some x
  | n + 1, x =>
    match d x with
    | .ok y => iterD d n y
    | .error _ => none

lemma iterD_succ_of (d : List Char → Except Unit (List Char)) {m : Nat}
    {x y z : List Char} (h1 : iterD d m x = some y) (h2 : d y = .ok z) :
    iterD d (m + 1) x = some z := by
  induction m generalizing x with
  | zero =>
    have hxy : x = y := by simpa [iterD] using h1
    subst hxy; simp [iterD, h2]
  | succ n ih =>
    cases hd : d x with
    | ok w =>
      have h1w : iterD d n w = some y := by
        have := h1
        simp only [iterD] at this
        rw [hd] at this
        exact this
      have := ih h1w
      simp only [iterD]
      rw [hd]
      exact this
    | error e =>
      have := h1
      simp only [iterD] at this
      rw [hd] at this
      exact absurd this (by simp)

lemma decodeLoop_spec (d : List Char → Except Unit (List Char)) :
    ∀ (fuel m : Nat) (prev cur x : List Char),
    iterD d m x = some cur → fuel + m = 5 →
    ((m = 0 ∧ prev = [] ∧ cur = x) ∨ d prev = .ok cur) →
    ∃ n, n ≤ 5 ∧ iterD d n x = some (decodeLoop d fuel prev cur) ∧
      (n = 5 ∨ decodeLoop d fuel prev cur = [] ∨
       d (decodeLoop d fuel prev cur) = .ok (decodeLoop d fuel prev cur) ∨
       d (decodeLoop d fuel prev cur) = .error ()) := by
  intro fuel
  induction fuel with
  | zero =>
    intro m prev cur x h1 h2 _
    exact ⟨m, by omega, by simpa [decodeLoop] using h1, Or.inl (by omega)⟩
  | succ f ih =>
    intro m prev cur x h1 h2 hinv
    by_cases hpc : prev = cur
    · refine ⟨m, by omega, by simpa [decodeLoop, hpc] using h1, ?_⟩
      rcases hinv with ⟨_, hprev, _⟩ | hd
      · right; left
        have : cur = [] := by rw [← hpc, hprev]
        simp [decodeLoop, hpc, this]
      · right; right; left
        have hd2 : d cur = .ok cur := by rw [← hpc]; rw [hpc] at hd; rw [← hpc] at hd; exact hd
        simpa [decodeLoop, hpc] using hd2
    · cases hd : d cur with
      | ok next =>
        have heq : decodeLoop d (f + 1) prev cur = decodeLoop d f cur next := by
          simp [decodeLoop, hpc, hd]
        rw [heq]
        exact ih (m + 1) cur next x (iterD_succ_of d h1 hd) (by omega) (Or.inr hd)
      | error e =>
        have heq : decodeLoop d (f + 1) prev cur = cur := by
          simp [decodeLoop, hpc, hd]
        rw [heq]
        refine ⟨m, by omega, h1, Or.inr (Or.inr (Or.inr ?_))⟩
        cases e; exact hd

/-- C6: for every decoder and input the loop of _normalize_encoding makes
at most 5 decoding passes and its result is a successfully decoded
iterate (so a decoding failure never escapes: the last successful value is
kept); it stops early once a pass produces no change, i.e. unless all 5
passes ran the result is empty input, a fixpoint of the decoder, or the
point where the decoder failed.  normalize_encoding is this loop with the
concrete percent decoder followed by entity decoding and the lossy UTF-8
round trip, so it terminates deterministically on every input. -/
theorem normalize_decode_bounded (d : List Char → Except Unit (List Char))
    (x : List Char) :
    (∃ n, n ≤ 5 ∧ iterD d n x = some (multiDecode d x) ∧
      (n = 5 ∨ multiDecode d x = [] ∨
       d (multiDecode d x) = .ok (multiDecode d x) ∨
       d (multiDecode d x) = .error ())) ∧
    normalize_encoding x = utf8Roundtrip (htmlUnescape (multiDecode unquoteD x)) := by
  refine ⟨?_, rfl⟩
  have := decodeLoop_spec d 5 0 [] x x (by simp [iterD]) (by omega)
    (Or.inl ⟨rfl, rfl, rfl⟩)
  simpa [multiDecode] using this

/-! C2.  The counterexample is the sql context on a single quote: escaping
doubles it again on the second pass.  The amended claim proves that the
path context, whose strict output stays inside the safe character set, is
idempotent. -/

/-- C2 counterexample: strict sanitization is not idempotent; in the sql
context a second pass doubles the quotes that the first pass produced. -/
theorem strict_sanitize_not_idempotent :
    sanitize_input (sanitize_input [squote] "sql" true) "sql" true ≠
      sanitize_input [squote] "sql" true := by decide

lemma subGo_id {r : Rx} {P : Char → Prop}
    (H : ∀ prev t, (∀ c ∈ t, P c) → matchAt r prev t = none) :
    ∀ (s : List Char) (fuel : Nat) (prev : Option Char),
      (∀ c ∈ s, P c) → subGo fuel r prev s = s := by
  intro s
  induction s with
  | nil =>
    intro fuel prev h
    cases fuel with
    | zero => rfl
    | succ f => simp [subGo, H prev [] (by simp)]
  | cons c t ih =>
    intro fuel prev h
    cases fuel with
    | zero => rfl
    | succ f =>
      have hm : matchAt r prev (c :: t) = none := H prev (c :: t) h
      simp only [subGo, hm]
      rw [ih f (some c) (fun d hd => h d (List.mem_cons_of_mem _ hd))]

lemma subAll_id {r : Rx} {P : Char → Prop}
    (H : ∀ prev t, (∀ c ∈ t, P c) → matchAt r prev t = none)
    {s : List Char} (h : ∀ c ∈ s, P c) : subAll r s = s :=
  subGo_id H s (s.length + 1) none h

lemma mgo_seq_lit_first_none (deeper : Rx → Option Char → List Char → MCont → MRes)
    (k : MCont) (prev : Option Char) (c : Char) (r2 : Rx) (s : List Char)
    (h : ∀ d ∈ s, (pyLower d == pyLower c) = false) :
    mgo deeper (.seq (.lit c) r2) prev s k = none := by
  cases s with
  | nil => rfl
  | cons d t => simp [mgo, h d (by simp)]

lemma p1_mgo_none (deeper : Rx → Option Char → List Char → MCont → MRes)
    (k : MCont) (prev : Option Char) (s : List Char)
    (h : ∀ d ∈ s, (pyLower d == pyLower '/') = false) :
    mgo deeper pathP1 prev s k = none := by
  cases s with
  | nil => rfl
  | cons c1 t1 =>
    by_cases h1 : (pyLower c1 == pyLower '.') = true
    · cases t1 with
      | nil => simp [pathP1, rplus, mgo, h1]
      | cons c2 t2 =>
        by_cases h2 : (pyLower c2 == pyLower '.') = true
        · cases t2 with
          | nil => simp [pathP1, rplus, mgo, h1, h2]
          | cons c3 t3 =>
            have h3 : (pyLower c3 == pyLower '/') = false := h c3 (by simp)
            simp [pathP1, rplus, mgo, h1, h2, h3]
        · simp [pathP1, rplus, mgo, h1, h2]
    · simp [pathP1, rplus, mgo, h1]

lemma p2_mgo_none (deeper : Rx → Option Char → List Char → MCont → MRes)
    (k : MCont) (prev : Option Char) (s : List Char)
    (h : ∀ d ∈ s, (pyLower d == pyLower '\\') = false) :
    mgo deeper pathP2 prev s k = none := by
  cases s with
  | nil => rfl
  | cons c1 t1 =>
    by_cases h1 : (pyLower c1 == pyLower '.') = true
    · cases t1 with
      | nil => simp [pathP2, rplus, mgo, h1]
      | cons c2 t2 =>
        by_cases h2 : (pyLower c2 == pyLower '.') = true
        · cases t2 with
          | nil => simp [pathP2, rplus, mgo, h1, h2]
          | cons c3 t3 =>
            have h3 : (pyLower c3 == pyLower '\\') = false := h c3 (by simp)
            simp [pathP2, rplus, mgo, h1, h2, h3]
        · simp [pathP2, rplus, mgo, h1, h2]
    · simp [pathP2, rplus, mgo, h1]

lemma p1_matchAt_none (prev : Option Char) (s : List Char)
    (h : ∀ d ∈ s, (pyLower d == pyLower '/') = false) :
    matchAt pathP1 prev s = none :=
  p1_mgo_none (mrun (s.length + 7)) _ prev s h

lemma p2_matchAt_none (prev : Option Char) (s : List Char)
    (h : ∀ d ∈ s, (pyLower d == pyLower '\\') = false) :
    matchAt pathP2 prev s = none :=
  p2_mgo_none (mrun (s.length + 7)) _ prev s h

lemma p3_matchAt_none (prev : Option Char) (s : List Char)
    (h : ∀ d ∈ s, (pyLower d == pyLower '%') = false) :
    matchAt pathP3 prev s = none :=
  mgo_seq_lit_first_none (mrun (s.length + 7)) _ prev '%' _ s h

lemma p4_matchAt_none (prev : Option Char) (s : List Char)
    (h : ∀ d ∈ s, (pyLower d == pyLower '%') = false) :
    matchAt pathP4 prev s = none :=
  mgo_seq_lit_first_none (mrun (s.length + 7)) _ prev '%' _ s h

lemma p5_matchAt_none (prev : Option Char) (s : List Char)
    (h : ∀ d ∈ s, (pyLower d == pyLower '%') = false) :
    matchAt pathP5 prev s = none :=
  mgo_seq_lit_first_none (mrun (s.length + 7)) _ prev '%' _ s h

/-! Identity of the encoding normalizer on percent-free, ampersand-free
strings. -/

lemma qtokGo_raw : ∀ (s : List Char) (fuel : Nat), s.length < fuel →
    (∀ c ∈ s, c ≠ '%') → qtokGo fuel s = s.map QTok.raw := by
  intro s
  induction s with
  | nil =>
    intro fuel hf _
    cases fuel with
    | zero => omega
    | succ f => rfl
  | cons c t ih =>
    intro fuel hf h
    cases fuel with
    | zero => omega
    | succ f =>
      have hc : c ≠ '%' := h c (by simp)
      have ht : t.length < f := by simpa using Nat.lt_of_succ_lt_succ hf
      simp [qtokGo, hc, ih f ht (fun d hd => h d (List.mem_cons_of_mem _ hd))]

lemma decodeToksAux_raw : ∀ (s : List Char),
    decodeToksAux (s.map QTok.raw) [] = s := by
  intro s
  induction s with
  | nil => rfl
  | cons c t ih => simp [decodeToksAux, ih, utf8DecodeReplace, utf8Go]

lemma pyUnquote_id {s : List Char} (h : ∀ c ∈ s, c ≠ '%') :
    pyUnquote s = s := by
  unfold pyUnquote qtokenize
  rw [qtokGo_raw s (s.length + 1) (by omega) h, decodeToksAux_raw]

lemma unescGo_id : ∀ (s : List Char) (fuel : Nat),
    (∀ c ∈ s, c ≠ '&') → unescGo fuel s = s := by
  intro s
  induction s with
  | nil =>
    intro fuel _
    cases fuel with
    | zero => rfl
    | succ f => rfl
  | cons c t ih =>
    intro fuel h
    cases fuel with
    | zero => rfl
    | succ f =>
      have hc : c ≠ '&' := h c (by simp)
      simp [unescGo, hc, ih f (fun d hd => h d (List.mem_cons_of_mem _ hd))]

lemma htmlUnescape_id {s : List Char} (h : ∀ c ∈ s, c ≠ '&') :
    htmlUnescape s = s :=
  unescGo_id s (s.length + 1) h

lemma multiDecode_fix (d : List Char → Except Unit (List Char)) (x : List Char)
    (h : d x = .ok x) : multiDecode d x = x := by
  by_cases hx : x = []
  · subst hx; simp [multiDecode, decodeLoop]
  · have hne : ¬(([] : List Char) = x) := fun hh => hx hh.symm
    simp [multiDecode, decodeLoop, hne, h]

lemma normalize_encoding_id {s : List Char}
    (h : ∀ c ∈ s, c ≠ '%' ∧ c ≠ '&') : normalize_encoding s = s := by
  unfold normalize_encoding utf8Roundtrip
  rw [multiDecode_fix unquoteD s
    (by unfold unquoteD; rw [pyUnquote_id (fun c hc => (h c hc).1)])]
  exact htmlUnescape_id (fun c hc => (h c hc).2)

/-- Facts about every character of the strict path-safe set, established
by evaluation. -/
lemma pathSafe_props : ∀ c ∈ pathSafeChars,
    (pyLower c == pyLower '/') = false ∧ (pyLower c == pyLower '\\') = false ∧
    (pyLower c == pyLower '%') = false ∧ c ≠ '%' ∧ c ≠ '&' ∧
    (pathSafeChars.contains c) = true ∧
    ((whitelistAllowed "path").contains c) = true := by decide

lemma mem_sanitize_path_strict {c : Char} {x : List Char}
    (h : c ∈ sanitize_input x "path" true) : c ∈ pathSafeChars := by
  by_cases hx : x = []
  · subst hx; simp [sanitize_input] at h
  · have h2 : c ∈ whitelistFilter
        (sanitize_path (normalize_encoding x) true) "path" := by
      simpa [sanitize_input, hx] using h
    have h3 : c ∈ sanitize_path (normalize_encoding x) true :=
      mem_whitelistFilter_left h2
    have h4 : c ∈ sanitizeWith pathPatterns (normalize_encoding x) ∧
        c ∈ pathSafeChars := by simpa [sanitize_path] using h3
    exact h4.2

lemma sanitize_path_strict_eq {z : List Char} (hz : ¬z = []) :
    sanitize_input z "path" true =
      whitelistFilter (sanitize_path (normalize_encoding z) true) "path" := by
  simp [sanitize_input, hz]

lemma sanitizeWith_path_id {y : List Char} (hy : ∀ c ∈ y, c ∈ pathSafeChars) :
    sanitizeWith pathPatterns y = y := by
  have h1 : ∀ c ∈ y, (pyLower c == pyLower '/') = false :=
    fun c hc => (pathSafe_props c (hy c hc)).1
  have h2 : ∀ c ∈ y, (pyLower c == pyLower '\\') = false :=
    fun c hc => (pathSafe_props c (hy c hc)).2.1
  have h3 : ∀ c ∈ y, (pyLower c == pyLower '%') = false :=
    fun c hc => (pathSafe_props c (hy c hc)).2.2.1
  rw [show sanitizeWith pathPatterns y =
    subAll pathP5 (subAll pathP4 (subAll pathP3 (subAll pathP2 (subAll pathP1 y))))
    from rfl]
  rw [subAll_id (fun prev t ht => p1_matchAt_none prev t ht) h1]
  rw [subAll_id (fun prev t ht => p2_matchAt_none prev t ht) h2]
  rw [subAll_id (fun prev t ht => p3_matchAt_none prev t ht) h3]
  rw [subAll_id (fun prev t ht => p4_matchAt_none prev t ht) h3]
  rw [subAll_id (fun prev t ht => p5_matchAt_none prev t ht) h3]

/-- C2 amended: strict sanitization is idempotent for the path context
(its strict output consists of path-safe characters on which the whole
pipeline acts as the identity); for the other contexts a second strict
pass can change the string, as the sql counterexample shows. -/
theorem strict_path_idempotent (x : List Char) :
    sanitize_input (sanitize_input x "path" true) "path" true =
      sanitize_input x "path" true := by
  by_cases hynil : sanitize_input x "path" true = []
  · rw [hynil]; simp [sanitize_input]
  · have hmem : ∀ c ∈ sanitize_input x "path" true, c ∈ pathSafeChars :=
      fun c hc => mem_sanitize_path_strict hc
    have hnorm : normalize_encoding (sanitize_input x "path" true) =
        sanitize_input x "path" true :=
      normalize_encoding_id (fun c hc =>
        ⟨(pathSafe_props c (hmem c hc)).2.2.2.1,
         (pathSafe_props c (hmem c hc)).2.2.2.2.1⟩)
    have hsw : sanitizeWith pathPatterns (sanitize_input x "path" true) =
        sanitize_input x "path" true := sanitizeWith_path_id hmem
    have hfilt : (sanitize_input x "path" true).filter
        (fun c => pathSafeChars.contains c) = sanitize_input x "path" true :=
      List.filter_eq_self.mpr
        (fun c hc => (pathSafe_props c (hmem c hc)).2.2.2.2.2.1)
    have hwl : whitelistFilter (sanitize_input x "path" true) "path" =
        sanitize_input x "path" true := by
      unfold whitelistFilter
      exact List.filter_eq_self.mpr
        (fun c hc => (pathSafe_props c (hmem c hc)).2.2.2.2.2.2)
    calc sanitize_input (sanitize_input x "path" true) "path" true
        = whitelistFilter
            (sanitize_path (normalize_encoding (sanitize_input x "path" true))
              true) "path" := sanitize_path_strict_eq hynil
      _ = whitelistFilter
            (sanitize_path (sanitize_input x "path" true) true) "path" := by
          rw [hnorm]
      _ = whitelistFilter ((sanitize_input x "path" true).filter
            (fun c => pathSafeChars.contains c)) "path" := by
          simp [sanitize_path, hsw]
      _ = whitelistFilter (sanitize_input x "path" true) "path" := by rw [hfilt]
      _ = sanitize_input x "path" true := hwl

